import Mathlib

/-!
Verification of the weekly to-do list data model
(src/minimalist_to_do_app_react_single_file.jsx).

The JavaScript component manages a mapping from day keys to ordered task
lists.  All mutation paths are small pure list transformations; we embed
them here over Lean lists and prove the specified properties.

Modelling conventions:
* a JS string is a Lean `String` (a list of characters); the trimming done
  by `String.prototype.trim` is embedded as `jsTrim`, dropping the
  whitespace characters relevant to this program from both ends;
* the identifier generator `uid()` (line 15) and the clock `Date.now()` are
  nondeterministic inputs, passed as explicit parameters (`uid : Nat → String`
  indexed by call count, `now : Nat`);
* the store `tasksByDate` is a partial map `String → Option (List Task)`;
  an absent key is `none`, mirroring key absence in the JS object;
* `JSON.parse` / `localStorage.getItem` are abstracted as parameters of the
  load path: the blob is `Option String`, the parser `String → Option Store`
  where `none` models a thrown parse error.
-/

namespace Todo

/-- Whitespace characters trimmed by the JS `trim()` calls in the source
(space, tab, line feed, carriage return, vertical tab, form feed,
no-break space). -/
def isJsWhitespace (c : Char) : Bool :=
  c = ' ' || c = '\t' || c = '\n' || c = '\r' ||
  c = Char.ofNat 11 || c = Char.ofNat 12 || c = Char.ofNat 160

/-- Trim on the character list: drop whitespace from the front, then from
the back (`List.rdropWhile` drops from the right). -/
def jsTrimList (l : List Char) : List Char :=
  (l.dropWhile isJsWhitespace).rdropWhile isJsWhitespace

/-- `String.prototype.trim`, as used at lines 87 and 359 of the source. -/
def jsTrim (s : String) : String :=
  String.mk (jsTrimList s.data)

/-- A task record: `{ id: uid(), text: t, done: false, createdAt: Date.now() }`
(line 89). -/
structure Task where
  id : String
  text : String
  done : Bool
  createdAt : Nat
deriving Repr, DecidableEq

/-- `addTask` (lines 86-94) restricted to its effect on the target bucket:
trim the text, return the bucket unchanged when the trimmed text is empty,
otherwise prepend the freshly built task. -/
def addTask (text : String) (newId : String) (now : Nat) (bucket : List Task) :
    List Task :=
  let t := jsTrim text
  if t = "" then bucket
  else { id := newId, text := t, done := false, createdAt := now } :: bucket

/-- `toggleDone` (lines 96-99) on a bucket: flip `done` on the task whose id
matches, via `map`. -/
def toggleDone (id : String) (bucket : List Task) : List Task :=
  bucket.map fun t => if t.id = id then { t with done := !t.done } else t

/-- `deleteTask` (lines 101-104): keep the tasks whose id differs. -/
def deleteTask (id : String) (bucket : List Task) : List Task :=
  bucket.filter fun t => t.id != id

/-- `editTask` (lines 106-109): replace the text of the matching task.
The raw text arrives already trimmed by the editor, see `saveEdit`. -/
def editTask (id : String) (newText : String) (bucket : List Task) : List Task :=
  bucket.map fun t => if t.id = id then { t with text := newText } else t

/-- The save path of `EditableText` (lines 358-363): trim the edited value;
when the trimmed value is empty the edit is discarded (the bucket is
untouched), otherwise `editTask` is invoked with the trimmed value. -/
def saveEdit (id : String) (rawValue : String) (bucket : List Task) : List Task :=
  let trimmed := jsTrim rawValue
  if trimmed = "" then bucket else editTask id trimmed bucket

/-- `clearCompleted` (lines 111-114): keep the unfinished tasks. -/
def clearCompleted (bucket : List Task) : List Task :=
  bucket.filter fun t => !t.done

/-- `clearAll` (lines 116-118): the bucket becomes empty. -/
def clearAll (_bucket : List Task) : List Task := []

/-- The clone loop of `importYesterday` (line 124):
`from.map(f => ({ id: uid(), text: f.text, done: false, createdAt: Date.now() }))`,
with the successive `uid()` results indexed by call count. -/
def cloneTasks (uid : Nat → String) (now : Nat) : Nat → List Task → List Task
  | _, [] => []
  | i, f :: rest =>
      { id := uid i, text := f.text, done := false, createdAt := now } ::
        cloneTasks uid now (i + 1) rest

/-- `importYesterday` (lines 120-126) on buckets: filter the source bucket to
its unfinished tasks; if none, the destination is untouched; otherwise the
clones are prepended to the destination bucket. -/
def importYesterday (uid : Nat → String) (now : Nat)
    (source dest : List Task) : List Task :=
  let unfinished := source.filter fun t => !t.done
  if unfinished.isEmpty then dest
  else cloneTasks uid now 0 unfinished ++ dest

/-- What a day-key slot of `tasksByDate` holds once the drag path has run:
the JS object is untyped, so a slot can hold a task list or - because
`onDragOver` hands `setTasksForKey` an updater function and `setTasksForKey`
stores its second argument verbatim - the updater closure itself. -/
inductive SlotValue where
  | tasks : List Task → SlotValue
  | closure : (List Task → List Task) → SlotValue

/-- The untyped store the drag path operates on. -/
def UntypedStore : Type := String → Option SlotValue

/-- `setTasksForKey` (lines 82-84) over the untyped store: the spread binds
`key` to the second argument verbatim, whatever value it is. -/
def setSlotForKey (store : UntypedStore) (key : String) (v : SlotValue) :
    UntypedStore :=
  fun k => if k = key then some v else store k

/-- The body of the updater closure built by `onDragOver` (lines 148-154):
`splice(dragIndex, 1)` removes the dragged element, `splice(index, 0, moved)`
reinserts it at the hover index.  This is the update the handler intends;
the `none` branch is unreachable for the in-range indices the rendered list
supplies. -/
def dragUpdater (dragIndex index : Nat) (prev : List Task) : List Task :=
  match prev[dragIndex]? with
  | none => prev
  | some moved => (prev.eraseIdx dragIndex).insertIdx index moved

/-- `onDragOver` (lines 144-155) at store level: after the null and
equal-index guards it calls `setTasksForKey(selectedKey, prev => ...)`, and
`setTasksForKey` binds the selected key to that closure verbatim - the
splice body is never applied to the bucket. -/
def onDragOver (store : UntypedStore) (selectedKey : String)
    (dragItem : Option Nat) (index : Nat) : UntypedStore :=
  match dragItem with
  | none => store
  | some dragIndex =>
      if dragIndex = index then store
      else
        setSlotForKey store selectedKey
          (SlotValue.closure (dragUpdater dragIndex index))

/-- Whether a slot holds an actual task list. -/
def slotIsTaskList : Option SlotValue → Bool
  | some (SlotValue.tasks _) => true
  | _ => false

/-- The store `tasksByDate`: a partial map from day keys to buckets; `none`
models key absence in the JS object. -/
def Store : Type := String → Option (List Task)

/-- The initial store state `useState({})` (line 38): the empty mapping. -/
def emptyStore : Store := fun _ => none

/-- `tasksForKey` (lines 78-80): the stored bucket, or the empty list when
the key is absent. -/
def tasksForKey (store : Store) (key : String) : List Task :=
  (store key).getD []

/-- `setTasksForKey` (lines 82-84): the spread `(\x7b ...prev, [key]: arr \x7d)`
binds `key` to `arr` and keeps every other binding of `prev`. -/
def setTasksForKey (store : Store) (key : String) (arr : List Task) : Store :=
  fun k => if k = key then some arr else store k

/-- The hydration effect (lines 51-58).  The state starts as the empty
mapping; `localStorage.getItem` yields `blob` (`none` for a missing key; an
empty string is falsy and also skipped); a throwing `JSON.parse` is modelled
by `parse` returning `none` and is caught, leaving the empty mapping. -/
def loadStore (blob : Option String) (parse : String → Option Store) : Store :=
  match blob with
  | none => emptyStore
  | some raw =>
      if raw = "" then emptyStore
      else
        match parse raw with
        | none => emptyStore
        | some m => m

/-- `importYesterday` (lines 120-126) at store level: read and filter the
bucket of `yesterdayKey`; when no unfinished task exists, return before
touching the store; otherwise rebind only `selectedKey`. -/
def importYesterdayStore (uid : Nat → String) (now : Nat) (store : Store)
    (yesterdayKey selectedKey : String) : Store :=
  let fromTasks := (tasksForKey store yesterdayKey).filter fun t => !t.done
  if fromTasks.isEmpty then store
  else
    setTasksForKey store selectedKey
      (cloneTasks uid now 0 fromTasks ++ tasksForKey store selectedKey)

/-- The displayed week (lines 65-72) with days counted as day numbers
(days since an epoch): `weekStart` is the displayed Monday and the seven
entries are the consecutive days.  `isoDate` is injective on days, so day
numbers stand for the `YYYY-MM-DD` keys. -/
def weekDayNumbers (weekStart : Nat) : List Nat :=
  (List.range 7).map fun i => weekStart + i

/-- `nextDayKey` (line 75): the entry of the displayed week at index
`(selectedDayIndex + 1) % 7`. -/
def nextDayNumber (weekStart sel : Nat) : Option Nat :=
  (weekDayNumbers weekStart)[(sel + 1) % 7]?

/-- `yesterdayKey` (line 76): the entry of the displayed week at index
`(selectedDayIndex + 6) % 7` (wrap-around). -/
def yesterdayNumber (weekStart sel : Nat) : Option Nat :=
  (weekDayNumbers weekStart)[(sel + 6) % 7]?

/-- The filtered projection `visible` (lines 162-166). -/
def visibleTasks (filter : String) (bucket : List Task) : List Task :=
  bucket.filter fun t =>
    if filter = "active" then !t.done
    else if filter = "done" then t.done
    else true

/-- `stats.total` (line 169). -/
def statsTotal (bucket : List Task) : Nat := bucket.length

/-- `stats.active` (line 170). -/
def statsActive (bucket : List Task) : Nat :=
  (bucket.filter fun t => !t.done).length

/-- `stats.done` (line 171). -/
def statsDone (bucket : List Task) : Nat :=
  (bucket.filter fun t => t.done).length

/-- A stored text is well formed when it is its own trimming and non-empty
(the invariant the write paths are meant to maintain). -/
def textWellFormed (t : Task) : Prop :=
  jsTrim t.text = t.text ∧ t.text ≠ ""

instance (t : Task) : Decidable (textWellFormed t) := by
  unfold textWellFormed; infer_instance

/-- Every task of the bucket has well-formed text. -/
def bucketTextsWellFormed (bucket : List Task) : Prop :=
  ∀ t ∈ bucket, textWellFormed t

instance (bucket : List Task) : Decidable (bucketTextsWellFormed bucket) :=
  List.decidableBAll _ bucket

/-! ### Helper lemmas -/

theorem cloneTasks_length (uid : Nat → String) (now : Nat) (s : Nat)
    (l : List Task) : (cloneTasks uid now s l).length = l.length := by
  induction l generalizing s with
  | nil => rfl
  | cons f rest ih => simp [cloneTasks, ih]

theorem cloneTasks_map_text (uid : Nat → String) (now : Nat) (s : Nat)
    (l : List Task) :
    (cloneTasks uid now s l).map Task.text = l.map Task.text := by
  induction l generalizing s with
  | nil => rfl
  | cons f rest ih => simp [cloneTasks, ih]

theorem cloneTasks_map_id (uid : Nat → String) (now : Nat) (s : Nat)
    (l : List Task) :
    (cloneTasks uid now s l).map Task.id = (List.range' s l.length).map uid := by
  induction l generalizing s with
  | nil => rfl
  | cons f rest ih => simp [cloneTasks, List.range'_succ, ih]

theorem cloneTasks_flags (uid : Nat → String) (now : Nat) (s : Nat)
    (l : List Task) :
    ∀ t ∈ cloneTasks uid now s l, t.done = false ∧ t.createdAt = now := by
  induction l generalizing s with
  | nil => intro t ht; cases ht
  | cons f rest ih =>
      intro t ht
      rcases ht with _ | ⟨_, ht⟩
      · exact ⟨rfl, rfl⟩
      · exact ih (s + 1) t ht

/-- Trimming is idempotent on character lists. -/
theorem jsTrimList_idem (l : List Char) :
    jsTrimList (jsTrimList l) = jsTrimList l := by
  unfold jsTrimList
  set p := isJsWhitespace with hp
  set y := l.dropWhile p with hy
  have hyy : y.dropWhile p = y := by
    rw [hy]; exact List.dropWhile_idempotent p l
  have hpre : y.rdropWhile p <+: y := List.rdropWhile_prefix p y
  have hdw : (y.rdropWhile p).dropWhile p = y.rdropWhile p := by
    rw [List.dropWhile_eq_self_iff]
    intro hl
    have h0y : 0 < y.length := lt_of_lt_of_le hl hpre.length_le
    have hget : (y.rdropWhile p).get ⟨0, hl⟩ = y.get ⟨0, h0y⟩ := by
      simpa [List.get_eq_getElem] using hpre.getElem hl
    rw [hget]
    exact List.dropWhile_eq_self_iff.mp hyy h0y
  rw [hdw]
  exact List.rdropWhile_idempotent p _

/-- Trimming is idempotent on strings. -/
theorem jsTrim_idem (s : String) : jsTrim (jsTrim s) = jsTrim s :=
  congrArg String.mk (jsTrimList_idem s.data)

/-- Putting the removed element back at the index it was removed from
rebuilds the original list. -/
theorem insertIdx_getElem_eraseIdx (l : List Task) (i : Nat) (h : i < l.length) :
    (l.eraseIdx i).insertIdx i l[i] = l := by
  induction l generalizing i with
  | nil => exact absurd h (Nat.not_lt_zero i)
  | cons a rest ih =>
      cases i with
      | zero => rfl
      | succ n =>
          simp only [List.eraseIdx_cons_succ, List.getElem_cons_succ,
            List.insertIdx_succ_cons]
          rw [ih n (by simpa using h)]

/-- With no unfinished source task, `importYesterday` returns the
destination untouched. -/
theorem importYesterday_of_no_unfinished (uid : Nat → String) (now : Nat)
    (source dest : List Task) (h : source.filter (fun t => !t.done) = []) :
    importYesterday uid now source dest = dest := by
  simp [importYesterday, h]

/-- With at least one unfinished source task, `importYesterday` prepends the
clones of the unfinished tasks. -/
theorem importYesterday_eq_append (uid : Nat → String) (now : Nat)
    (source dest : List Task) (h : source.filter (fun t => !t.done) ≠ []) :
    importYesterday uid now source dest =
      cloneTasks uid now 0 (source.filter fun t => !t.done) ++ dest := by
  simp only [importYesterday]
  rcases hfe : source.filter (fun t => !t.done) with _ | ⟨a, as⟩
  · exact absurd hfe h
  · rw [hfe]
    simp

/-! ### Claims -/

/-- C1: `addTask` trims the text; if the trimmed text is empty the bucket is
returned unchanged; otherwise the result has one more element, its first
element is the new task carrying the trimmed text, `done = false` and the
supplied fresh id and timestamp, and the pre-existing tasks follow unchanged
in their original order. -/
theorem addTask_spec (text newId : String) (now : Nat) (bucket : List Task) :
    (jsTrim text = "" → addTask text newId now bucket = bucket) ∧
    (jsTrim text ≠ "" →
      (addTask text newId now bucket).length = bucket.length + 1 ∧
      (addTask text newId now bucket).head? =
        some { id := newId, text := jsTrim text, done := false, createdAt := now } ∧
      (addTask text newId now bucket).tail = bucket) := by
  unfold addTask
  by_cases h : jsTrim text = "" <;> simp [h]

theorem addTask_spec_witness :
    (addTask "  buy milk " "a1" 42 ([] : List Task)).length =
        ([] : List Task).length + 1 ∧
    (addTask "  buy milk " "a1" 42 ([] : List Task)).head? =
      some { id := "a1", text := jsTrim "  buy milk ", done := false,
             createdAt := 42 } ∧
    (addTask "  buy milk " "a1" 42 ([] : List Task)).tail = [] :=
  (addTask_spec "  buy milk " "a1" 42 []).2 (by decide)

/-- C2: `importYesterday` clones the unfinished source tasks in source order
(same text, `done = false`, the supplied fresh ids and timestamp) and
prepends the clones to the destination bucket; with no unfinished source
task the destination is unchanged. -/
theorem importYesterday_spec (uid : Nat → String) (now : Nat)
    (source dest : List Task) :
    (source.filter (fun t => !t.done) = [] →
      importYesterday uid now source dest = dest) ∧
    (importYesterday uid now source dest).drop
        (source.filter fun t => !t.done).length = dest ∧
    ((importYesterday uid now source dest).take
          (source.filter fun t => !t.done).length).map Task.text =
      (source.filter fun t => !t.done).map Task.text ∧
    ((importYesterday uid now source dest).take
          (source.filter fun t => !t.done).length).map Task.id =
      (List.range (source.filter fun t => !t.done).length).map uid ∧
    ∀ t ∈ (importYesterday uid now source dest).take
        (source.filter fun t => !t.done).length,
      t.done = false ∧ t.createdAt = now := by
  by_cases h : source.filter (fun t => !t.done) = []
  · rw [importYesterday_of_no_unfinished uid now source dest h]
    refine ⟨fun _ => rfl, ?_, ?_, ?_, ?_⟩ <;> simp [h]
  · have himp := importYesterday_eq_append uid now source dest h
    have hlen : (cloneTasks uid now 0 (source.filter fun t => !t.done)).length =
        (source.filter fun t => !t.done).length :=
      cloneTasks_length uid now 0 _
    refine ⟨fun hc => absurd hc h, ?_, ?_, ?_, ?_⟩
    · rw [himp, List.drop_left' hlen]
    · rw [himp, List.take_left' hlen, cloneTasks_map_text]
    · rw [himp, List.take_left' hlen, cloneTasks_map_id, List.range_eq_range']
    · rw [himp, List.take_left' hlen]
      exact cloneTasks_flags uid now 0 _

theorem importYesterday_spec_witness :
    ((importYesterday (fun i => toString i) 7
            [⟨"s1", "A", false, 0⟩, ⟨"s2", "B", true, 0⟩, ⟨"s3", "C", false, 0⟩]
            []).take
          ([⟨"s1", "A", false, 0⟩, ⟨"s2", "B", true, 0⟩,
              (⟨"s3", "C", false, 0⟩ : Task)].filter fun t => !t.done).length).map
        Task.text =
      ([⟨"s1", "A", false, 0⟩, ⟨"s2", "B", true, 0⟩,
          (⟨"s3", "C", false, 0⟩ : Task)].filter fun t => !t.done).map
        Task.text ∧
    importYesterday (fun i => toString i) 7 [⟨"s2", "B", true, 0⟩]
        [⟨"d1", "D", false, 1⟩] = [⟨"d1", "D", false, 1⟩] :=
  ⟨(importYesterday_spec (fun i => toString i) 7
      [⟨"s1", "A", false, 0⟩, ⟨"s2", "B", true, 0⟩, ⟨"s3", "C", false, 0⟩]
      []).2.2.1,
    (importYesterday_spec (fun i => toString i) 7 [⟨"s2", "B", true, 0⟩]
      [⟨"d1", "D", false, 1⟩]).1 (by decide)⟩

/-- The splice body the drag handler builds does satisfy the claimed
algebra: it moves the element at `i` to `j`, and applying it back with the
indices swapped restores the original list. -/
theorem dragUpdater_involutive (bucket : List Task) (i j : Nat)
    (hi : i < bucket.length) (hj : j < bucket.length) :
    (dragUpdater i j bucket)[j]? = bucket[i]? ∧
    dragUpdater j i (dragUpdater i j bucket) = bucket := by
  have hmoved : bucket[i]? = some bucket[i] := List.getElem?_eq_getElem hi
  have hr : dragUpdater i j bucket = (bucket.eraseIdx i).insertIdx j bucket[i] := by
    unfold dragUpdater
    rw [hmoved]
  have hlen : (bucket.eraseIdx i).length = bucket.length - 1 :=
    List.length_eraseIdx_of_lt hi
  have hj' : j ≤ (bucket.eraseIdx i).length := by omega
  have hjr : j < ((bucket.eraseIdx i).insertIdx j bucket[i]).length := by
    rw [List.length_insertIdx j _ hj']; omega
  have hget : ((bucket.eraseIdx i).insertIdx j bucket[i])[j]? = some bucket[i] := by
    rw [List.getElem?_eq_getElem hjr]
    exact congrArg some (List.getElem_insertIdx_self _ _ _ hj')
  refine ⟨by rw [hr, hget, hmoved], ?_⟩
  rw [hr]
  unfold dragUpdater
  rw [hget]
  show ((((bucket.eraseIdx i).insertIdx j bucket[i]).eraseIdx j).insertIdx i
      bucket[i]) = bucket
  rw [List.eraseIdx_insertIdx]
  exact insertIdx_getElem_eraseIdx bucket i hi

/-- C3 (code bug): the claim describes the update the drag handler intends,
and the closure body indeed moves the dragged element and is involutive
(first two conjuncts, at the failing input); but the program never applies
it to the bucket: `setTasksForKey` stores its second argument verbatim, so
after a drag-over from index 0 to index 2 the selected day's slot holds the
updater closure, not the reordered task list (last two conjuncts). -/
theorem onDragOver_code_bug :
    dragUpdater 0 2 [⟨"a", "x", false, 0⟩, ⟨"b", "y", false, 1⟩,
        ⟨"c", "z", true, 2⟩] =
      [⟨"b", "y", false, 1⟩, ⟨"c", "z", true, 2⟩, ⟨"a", "x", false, 0⟩] ∧
    dragUpdater 2 0 (dragUpdater 0 2 [⟨"a", "x", false, 0⟩,
        ⟨"b", "y", false, 1⟩, ⟨"c", "z", true, 2⟩]) =
      [⟨"a", "x", false, 0⟩, ⟨"b", "y", false, 1⟩, ⟨"c", "z", true, 2⟩] ∧
    slotIsTaskList
        (onDragOver
          (setSlotForKey (fun _ => none) "2025-01-06"
            (SlotValue.tasks [⟨"a", "x", false, 0⟩, ⟨"b", "y", false, 1⟩,
              ⟨"c", "z", true, 2⟩]))
          "2025-01-06" (some 0) 2 "2025-01-06") = false ∧
    (onDragOver
        (setSlotForKey (fun _ => none) "2025-01-06"
          (SlotValue.tasks [⟨"a", "x", false, 0⟩, ⟨"b", "y", false, 1⟩,
            ⟨"c", "z", true, 2⟩]))
        "2025-01-06" (some 0) 2 "2025-01-06").isSome = true := by
  refine ⟨by decide, by decide, rfl, rfl⟩

/-- C4: toggling an id present in the bucket twice restores the bucket, and a
single toggle keeps the order, the ids, the texts and the timestamps. -/
theorem toggleDone_spec (id : String) (bucket : List Task)
    (_hmem : id ∈ bucket.map Task.id) :
    toggleDone id (toggleDone id bucket) = bucket ∧
    (toggleDone id bucket).map Task.id = bucket.map Task.id ∧
    (toggleDone id bucket).map Task.text = bucket.map Task.text ∧
    (toggleDone id bucket).map Task.createdAt = bucket.map Task.createdAt := by
  have hinv : ∀ t : Task,
      (fun t : Task => if t.id = id then { t with done := !t.done } else t)
        ((fun t : Task => if t.id = id then { t with done := !t.done } else t) t) =
        t := by
    rintro ⟨tid, ttext, tdone, tcreated⟩
    by_cases h : tid = id <;> simp [h, Task.id]
  refine ⟨?_, ?_, ?_, ?_⟩ <;> unfold toggleDone <;> rw [List.map_map]
  · exact (List.map_congr_left fun t _ => hinv t).trans (List.map_id bucket)
  · refine List.map_congr_left fun t _ => ?_
    by_cases h : t.id = id <;> simp [h]
  · refine List.map_congr_left fun t _ => ?_
    by_cases h : t.id = id <;> simp [h]
  · refine List.map_congr_left fun t _ => ?_
    by_cases h : t.id = id <;> simp [h]

theorem toggleDone_spec_witness :
    toggleDone "a" (toggleDone "a" [⟨"a", "x", false, 0⟩, ⟨"b", "y", true, 1⟩]) =
      [⟨"a", "x", false, 0⟩, ⟨"b", "y", true, 1⟩] ∧
    (toggleDone "a" [⟨"a", "x", false, 0⟩, ⟨"b", "y", true, 1⟩]).map Task.id =
      [⟨"a", "x", false, 0⟩, (⟨"b", "y", true, 1⟩ : Task)].map Task.id ∧
    (toggleDone "a" [⟨"a", "x", false, 0⟩, ⟨"b", "y", true, 1⟩]).map Task.text =
      [⟨"a", "x", false, 0⟩, (⟨"b", "y", true, 1⟩ : Task)].map Task.text ∧
    (toggleDone "a" [⟨"a", "x", false, 0⟩, ⟨"b", "y", true, 1⟩]).map
        Task.createdAt =
      [⟨"a", "x", false, 0⟩, (⟨"b", "y", true, 1⟩ : Task)].map Task.createdAt :=
  toggleDone_spec "a" [⟨"a", "x", false, 0⟩, ⟨"b", "y", true, 1⟩] (by decide)

/-- C5 counterexample: the id generator `uid()` draws from `Math.random()`
and nothing prevents it from returning an id already present, so there is an
outcome of the generator for which `addTask` breaks per-bucket id
uniqueness: adding to a bucket holding id `"a"` with the generator yielding
`"a"` again produces duplicate ids. -/
theorem addTask_duplicate_id :
    ¬ ((addTask "y" "a" 0 [⟨"a", "x", false, 0⟩]).map Task.id).Nodup := by
  decide

/-- C5 (amended): per-bucket id uniqueness is preserved by `addTask` and
`importYesterday` provided the generated ids are fresh: the id handed to
`addTask` does not occur in the bucket, and the ids the generator hands to
`importYesterday` are pairwise distinct and absent from the destination
bucket. -/
theorem uniqueIds_preserved (text newId : String) (now : Nat)
    (bucket : List Task) (uid : Nat → String) (source dest : List Task)
    (hb : (bucket.map Task.id).Nodup)
    (hfresh : newId ∉ bucket.map Task.id)
    (hd : (dest.map Task.id).Nodup)
    (huid : ((List.range (source.filter fun t => !t.done).length).map uid).Nodup)
    (hdisj : ∀ i < (source.filter fun t => !t.done).length,
      uid i ∉ dest.map Task.id) :
    ((addTask text newId now bucket).map Task.id).Nodup ∧
    ((importYesterday uid now source dest).map Task.id).Nodup := by
  constructor
  · unfold addTask
    by_cases h : jsTrim text = ""
    · simpa [h] using hb
    · have hfresh2 : ∀ x ∈ bucket, ¬x.id = newId := by
        intro x hx hxe
        exact hfresh (List.mem_map.mpr ⟨x, hx, hxe⟩)
      simpa [h] using ⟨hfresh2, hb⟩
  · by_cases h : source.filter (fun t => !t.done) = []
    · rw [importYesterday_of_no_unfinished uid now source dest h]
      exact hd
    · have hids :
          (cloneTasks uid now 0 (source.filter fun t => !t.done)).map Task.id =
            (List.range (source.filter fun t => !t.done).length).map uid := by
        rw [cloneTasks_map_id, List.range_eq_range']
      rw [importYesterday_eq_append uid now source dest h, List.map_append,
        hids]
      refine List.Nodup.append huid hd ?_
      intro a ha hadest
      rw [List.mem_map] at ha
      obtain ⟨i, hi, rfl⟩ := ha
      rw [List.mem_range] at hi
      exact hdisj i hi hadest

theorem uniqueIds_preserved_witness :
    ((addTask "y" "b" 0 [⟨"a", "x", false, 0⟩]).map Task.id).Nodup ∧
    ((importYesterday (fun i => toString i) 7 [⟨"s1", "A", false, 0⟩]
          [⟨"d1", "D", false, 1⟩]).map Task.id).Nodup :=
  uniqueIds_preserved "y" "b" 0 [⟨"a", "x", false, 0⟩] (fun i => toString i)
    [⟨"s1", "A", false, 0⟩] [⟨"d1", "D", false, 1⟩]
    (by decide) (by decide) (by decide) (by decide) (by decide)

/-- C6: starting from buckets whose task texts are non-empty trimmed
strings, every operation yields a bucket with the same property: the write
paths (`addTask`, the editor's save path) trim the incoming text and drop
the write when the trimmed text is empty, and the remaining operations never
touch a text. -/
theorem textsWellFormed_preserved (text newId raw id : String) (now : Nat)
    (bucket : List Task) (uid : Nat → String) (source dest : List Task) :
    (bucketTextsWellFormed bucket →
      bucketTextsWellFormed (addTask text newId now bucket)) ∧
    (bucketTextsWellFormed bucket →
      bucketTextsWellFormed (saveEdit id raw bucket)) ∧
    (bucketTextsWellFormed bucket →
      bucketTextsWellFormed (toggleDone id bucket)) ∧
    (bucketTextsWellFormed bucket →
      bucketTextsWellFormed (deleteTask id bucket)) ∧
    (bucketTextsWellFormed bucket →
      bucketTextsWellFormed (clearCompleted bucket)) ∧
    bucketTextsWellFormed (clearAll bucket) ∧
    (bucketTextsWellFormed source → bucketTextsWellFormed dest →
      bucketTextsWellFormed (importYesterday uid now source dest)) := by
  refine ⟨?_, ?_, ?_, ?_, ?_, ?_, ?_⟩
  · intro hb
    unfold addTask
    by_cases h : jsTrim text = ""
    · simpa [h] using hb
    · rw [if_neg h]
      intro t ht
      rcases List.mem_cons.mp ht with rfl | hmem
      · exact ⟨jsTrim_idem text, h⟩
      · exact hb t hmem
  · intro hb
    unfold saveEdit
    by_cases h : jsTrim raw = ""
    · simpa [h] using hb
    · rw [if_neg h]
      intro t ht
      unfold editTask at ht
      rw [List.mem_map] at ht
      obtain ⟨x, hx, rfl⟩ := ht
      by_cases hxi : x.id = id
      · rw [if_pos hxi]
        exact ⟨jsTrim_idem raw, h⟩
      · rw [if_neg hxi]
        exact hb x hx
  · intro hb t ht
    unfold toggleDone at ht
    rw [List.mem_map] at ht
    obtain ⟨x, hx, rfl⟩ := ht
    have hwf := hb x hx
    by_cases hxi : x.id = id
    · rw [if_pos hxi]
      exact hwf
    · rw [if_neg hxi]
      exact hwf
  · intro hb t ht
    exact hb t (List.mem_of_mem_filter ht)
  · intro hb t ht
    exact hb t (List.mem_of_mem_filter ht)
  · intro t ht
    exact absurd ht (List.not_mem_nil t)
  · intro hs hd2
    by_cases h : source.filter (fun t => !t.done) = []
    · rw [importYesterday_of_no_unfinished uid now source dest h]
      exact hd2
    · rw [importYesterday_eq_append uid now source dest h]
      intro t ht
      rcases List.mem_append.mp ht with hcl | hdest
      · have htext : t.text ∈ (source.filter fun x => !x.done).map Task.text := by
          have hm := List.mem_map_of_mem Task.text hcl
          rwa [cloneTasks_map_text] at hm
        rw [List.mem_map] at htext
        obtain ⟨f, hf, hfe⟩ := htext
        have hwf := hs f (List.mem_of_mem_filter hf)
        unfold textWellFormed at hwf ⊢
        rw [← hfe]
        exact hwf
      · exact hd2 t hdest

theorem textsWellFormed_preserved_witness :
    bucketTextsWellFormed (addTask "n" "i" 0 [⟨"a", "x", false, 0⟩]) ∧
    bucketTextsWellFormed (saveEdit "a" " r " [⟨"a", "x", false, 0⟩]) ∧
    bucketTextsWellFormed (toggleDone "a" [⟨"a", "x", false, 0⟩]) ∧
    bucketTextsWellFormed (deleteTask "a" [⟨"a", "x", false, 0⟩]) ∧
    bucketTextsWellFormed (clearCompleted [⟨"a", "x", false, 0⟩]) ∧
    bucketTextsWellFormed (clearAll [⟨"a", "x", false, 0⟩]) ∧
    bucketTextsWellFormed (importYesterday (fun i => toString i) 0
      [⟨"s1", "A", false, 0⟩] [⟨"d1", "D", false, 1⟩]) := by
  have h := textsWellFormed_preserved "n" "i" " r " "a" 0
    [⟨"a", "x", false, 0⟩] (fun i => toString i) [⟨"s1", "A", false, 0⟩]
    [⟨"d1", "D", false, 1⟩]
  exact ⟨h.1 (by decide), h.2.1 (by decide), h.2.2.1 (by decide),
    h.2.2.2.1 (by decide), h.2.2.2.2.1 (by decide), h.2.2.2.2.2.1,
    h.2.2.2.2.2.2 (by decide) (by decide)⟩

/-- C7: hydration never surfaces a failure to the caller: with a missing
blob, or with a blob whose parse throws, the resulting store state is the
empty mapping (the catch block only logs). -/
theorem loadStore_spec (blob : Option String) (parse : String → Option Store) :
    (blob = none → loadStore blob parse = emptyStore) ∧
    (∀ raw, blob = some raw → parse raw = none →
      loadStore blob parse = emptyStore) := by
  constructor
  · rintro rfl
    rfl
  · rintro raw rfl hparse
    unfold loadStore
    by_cases h : raw = ""
    · simp [h]
    · simp [h, hparse]

theorem loadStore_spec_witness :
    loadStore (some "garbage") (fun _ => none) = emptyStore :=
  (loadStore_spec (some "garbage") (fun _ => none)).2 "garbage" rfl rfl

/-- C8: `setTasksForKey` rebinds exactly the given key and keeps every other
binding; consequently the store-level import touches at most the selected
day's bucket, so the source day's bucket is unchanged. -/
theorem setTasksForKey_spec (store : Store) (key k : String) (arr : List Task)
    (uid : Nat → String) (now : Nat) (ykey skey : String) :
    setTasksForKey store key arr key = some arr ∧
    (k ≠ key → setTasksForKey store key arr k = store k) ∧
    (∀ k2, k2 ≠ skey →
      importYesterdayStore uid now store ykey skey k2 = store k2) := by
  refine ⟨?_, ?_, ?_⟩
  · unfold setTasksForKey
    simp
  · intro hk
    unfold setTasksForKey
    simp [hk]
  · intro k2 hk2
    unfold importYesterdayStore
    by_cases h : ((tasksForKey store ykey).filter fun t => !t.done).isEmpty = true
    · simp [h]
    · simp [h, setTasksForKey, hk2]

theorem setTasksForKey_spec_witness :
    setTasksForKey emptyStore "2025-01-06" [⟨"a", "x", false, 0⟩]
        "2025-01-06" = some [⟨"a", "x", false, 0⟩] ∧
    setTasksForKey emptyStore "2025-01-06" [⟨"a", "x", false, 0⟩]
        "2025-01-07" = emptyStore "2025-01-07" ∧
    importYesterdayStore (fun i => toString i) 7 emptyStore "2025-01-06"
        "2025-01-07" "2025-01-06" = emptyStore "2025-01-06" :=
  have h := setTasksForKey_spec emptyStore "2025-01-06" "2025-01-07"
    [⟨"a", "x", false, 0⟩] (fun i => toString i) 7 "2025-01-06" "2025-01-07"
  ⟨h.1, h.2.1 (by decide), h.2.2 "2025-01-06" (by decide)⟩

/-- C9: for a selected index `d < 7` of the displayed week, the next-day key
is the entry at index `(d+1) % 7` and the previous-day key the entry at
index `(d+6) % 7` of the same displayed week; from the displayed Monday
(`d = 0`) the previous day is that week's own Sunday (`weekStart + 6`),
never the prior calendar week's Sunday (the day just before `weekStart`). -/
theorem dayNavigation_spec (weekStart d : Nat) (hd : d < 7) :
    nextDayNumber weekStart d = some (weekStart + (d + 1) % 7) ∧
    yesterdayNumber weekStart d = some (weekStart + (d + 6) % 7) ∧
    (d = 0 → yesterdayNumber weekStart d = some (weekStart + 6) ∧
      ∀ priorSunday : Nat, priorSunday + 1 = weekStart →
        weekStart + 6 ≠ priorSunday) := by
  have h1 : (d + 1) % 7 < 7 := Nat.mod_lt _ (by omega)
  have h6 : (d + 6) % 7 < 7 := Nat.mod_lt _ (by omega)
  refine ⟨?_, ?_, ?_⟩
  · unfold nextDayNumber weekDayNumbers
    simp [List.getElem?_range, h1]
  · unfold yesterdayNumber weekDayNumbers
    simp [List.getElem?_range, h6]
  · rintro rfl
    refine ⟨?_, ?_⟩
    · unfold yesterdayNumber weekDayNumbers
      simp [List.getElem?_range]
    · intro ps hps
      omega

theorem dayNavigation_spec_witness :
    nextDayNumber 700 0 = some (700 + (0 + 1) % 7) ∧
    yesterdayNumber 700 0 = some (700 + 6) :=
  ⟨(dayNavigation_spec 700 0 (by decide)).1,
    ((dayNavigation_spec 700 0 (by decide)).2.2 rfl).1⟩

/-- C10: the statistics are consistent (`total = active + done`), the
"active" and "done" projections partition the bucket with the bucket's
relative order preserved in each, and the "all" projection is the bucket
itself. -/
theorem visibleStats_spec (bucket : List Task) :
    visibleTasks "all" bucket = bucket ∧
    statsTotal bucket = statsActive bucket + statsDone bucket ∧
    List.Perm (visibleTasks "active" bucket ++ visibleTasks "done" bucket)
      bucket ∧
    List.Sublist (visibleTasks "active" bucket) bucket ∧
    List.Sublist (visibleTasks "done" bucket) bucket := by
  have hact : visibleTasks "active" bucket = bucket.filter fun t => !t.done := by
    unfold visibleTasks; simp
  have hdone : visibleTasks "done" bucket = bucket.filter fun t => t.done := by
    unfold visibleTasks; simp
  have hperm :
      List.Perm (visibleTasks "active" bucket ++ visibleTasks "done" bucket)
        bucket := by
    rw [hact, hdone]
    have h := List.filter_append_perm (fun t : Task => !t.done) bucket
    simpa [Bool.not_not] using h
  refine ⟨by unfold visibleTasks; simp, ?_, hperm, ?_, ?_⟩
  · have hlen := hperm.length_eq
    rw [List.length_append, hact, hdone] at hlen
    unfold statsTotal statsActive statsDone
    omega
  · rw [hact]; exact List.filter_sublist bucket
  · rw [hdone]; exact List.filter_sublist bucket

end Todo
